import Mathlib

/-!
Verification of `store/generate-localized-screenshots.py`.

The script holds a static table `TRANSLATIONS` mapping 39 locale identifiers to
8-tuples of translated strings, and a `main` routine that, for each locale,
reads six SVG template documents from the `en/` directory, performs Python
`str.replace` substitutions of delimited anchor strings (`>Anchor<`), and
writes the results to `<locale>/` with the same six filenames.

The embedding below models:
  * Python `str.replace` as `replaceAll` on `List Char` (all non-overlapping
    occurrences, scanned left to right), wrapped as `pyReplace` on `String`;
  * the filesystem as an association list from path to content, where a write
    prepends an entry (so lookups see the latest write) and a read is `lookup`;
  * the per-locale processing (`stepLang`), the run over the whole table
    (`runLocales` / `mainRun`), with the error-propagation behaviour of the
    script: a failed read aborts, files already written stay on disk.
-/

-- ### Python `str.replace` on lists of characters

/-- One scan step of Python `str.replace`, with explicit fuel so that the
function is structurally recursive (the fuel is an upper bound on the length
of the remaining list; `replaceAll` supplies `l.length`). At each position,
if the (nonempty) pattern matches, emit the replacement and skip the pattern;
otherwise keep the character and move one position right. -/
def replLoop (pat rep : List Char) : Nat → List Char → List Char
  | _, [] => []
  | 0, l => l
  | fuel+1, c :: cs =>
    if pat ≠ [] ∧ (c :: cs).take pat.length = pat then
      rep ++ replLoop pat rep fuel ((c :: cs).drop pat.length)
    else
      c :: replLoop pat rep fuel cs

/-- Python `content.replace(pat, rep)` on character lists (for nonempty `pat`;
the script only ever replaces nonempty anchor strings). -/
def replaceAll (l pat rep : List Char) : List Char :=
  replLoop pat rep l.length l

/-- Python `content.replace(old, new)` on strings. -/
def pyReplace (s old new : String) : String :=
  ⟨replaceAll s.data old.data new.data⟩

-- ### Decidable occurrence predicates used in theorem statements

/-- Boolean test: is `a` an initial segment of `b`? -/
def isPfx : List Char → List Char → Bool
  | [], _ => true
  | _ :: _, [] => false
  | a :: as, b :: bs => a == b && isPfx as bs

/-- Boolean test: does `pat` occur as a contiguous substring of `l`? -/
def occursIn (pat : List Char) : List Char → Bool
  | [] => pat.isEmpty
  | c :: cs => ((c :: cs).take pat.length == pat) || occursIn pat cs

/-- Boolean test: does `pat` match in `l` at offset `i`? -/
def matchAt (pat l : List Char) (i : Nat) : Bool :=
  (l.drop i).take pat.length == pat

/-- The character list of a delimited anchor `>s<`, as built by the script's
f-strings. -/
def wrapL (s : String) : List Char :=
  (">" ++ (s ++ "<")).data

-- ### The data of the script

/-- The `originals` dictionary of canonical English texts in `main`. -/
structure Originals where
  title1 : String
  desc1 : String
  title2 : String
  desc2 : String
  title3 : String
  desc3 : String
  title_ipad3 : String
  desc_ipad3 : String

/-- The canonical English texts to replace, from `main`. -/
def originals : Originals :=
  ⟨"WebView Tester", "Test WKWebView &amp; SafariVC instantly",
   "Built-in DevTools", "Console, Network, Storage and more",
   "Customize Settings", "Fine-tune options for precise testing",
   "WebView Capabilities", "Check API support and device info"⟩

/-- The eight variables bound by the tuple destructuring
`title1, desc1, ..., title_ipad3, desc_ipad3 = texts`. -/
structure Texts where
  title1 : String
  desc1 : String
  title2 : String
  desc2 : String
  title3 : String
  desc3 : String
  title_ipad3 : String
  desc_ipad3 : String

/-- The 8-way destructuring performed per locale; fails (Python `ValueError`)
unless the tuple has exactly eight components. -/
def unpack8 : List String → Option Texts
  | [a, b, c, d, e, f, g, h] => some ⟨a, b, c, d, e, f, g, h⟩
  | _ => none

/-- The `TRANSLATIONS` table, in the source's (insertion) order. Each value is
the tuple of 8 strings of the Python source. -/
def TRANSLATIONS : List (String × List String) := [
  ("en-US", ["WebView Tester", "Test WKWebView &amp; SafariVC instantly",
    "Built-in DevTools", "Console, Network, Storage and more",
    "Customize Settings", "Fine-tune options for precise testing",
    "WebView Capabilities", "Check API support and device info"]),
  ("en-GB", ["WebView Tester", "Test WKWebView &amp; SafariVC instantly",
    "Built-in DevTools", "Console, Network, Storage and more",
    "Customise Settings", "Fine-tune options for precise testing",
    "WebView Capabilities", "Check API support and device info"]),
  ("en-AU", ["WebView Tester", "Test WKWebView &amp; SafariVC instantly",
    "Built-in DevTools", "Console, Network, Storage and more",
    "Customise Settings", "Fine-tune options for precise testing",
    "WebView Capabilities", "Check API support and device info"]),
  ("en-CA", ["WebView Tester", "Test WKWebView &amp; SafariVC instantly",
    "Built-in DevTools", "Console, Network, Storage and more",
    "Customize Settings", "Fine-tune options for precise testing",
    "WebView Capabilities", "Check API support and device info"]),
  ("ko", ["WebView 테스터", "WKWebView와 SafariVC를 바로 테스트하세요",
    "내장 개발자 도구", "콘솔, 네트워크, 저장소 등을 확인하세요",
    "설정 커스터마이즈", "세밀한 테스트를 위해 옵션을 조정하세요",
    "WebView 기능", "API 지원과 기기 정보를 확인하세요"]),
  ("ja", ["WebView テスター", "WKWebViewとSafariVCをすぐにテストできます",
    "内蔵デベロッパーツール", "コンソール、ネットワーク、ストレージなどを確認できます",
    "設定をカスタマイズ", "細かいテストのためにオプションを調整できます",
    "WebView 機能", "APIサポートとデバイス情報を確認できます"]),
  ("zh-Hans", ["WebView 测试工具", "立即测试 WKWebView 与 SafariVC",
    "内置开发者工具", "提供控制台、网络、存储等功能",
    "自定义设置", "可精确调整各项测试选项",
    "WebView 功能", "可查看 API 支持与设备信息"]),
  ("zh-Hant", ["WebView 測試工具", "立即測試 WKWebView 與 SafariVC",
    "內建開發者工具", "提供控制台、網路、儲存等功能",
    "自訂設定", "可精確調整各項測試選項",
    "WebView 功能", "可查看 API 支援與裝置資訊"]),
  ("de-DE", ["WebView Tester", "Testen Sie WKWebView &amp; SafariVC sofort",
    "Integrierte Entwicklertools", "Konsole, Netzwerk, Speicher und mehr",
    "Einstellungen anpassen", "Passen Sie die Optionen für präzise Tests an",
    "WebView Funktionen", "Prüfen Sie API-Unterstützung und Geräteinformationen"]),
  ("fr-FR", ["Testeur WebView", "Testez WKWebView &amp; SafariVC instantanément",
    "Outils de développement intégrés", "Console, Réseau, Stockage et plus encore",
    "Personnaliser les réglages", "Ajustez les options pour des tests précis",
    "Fonctionnalités WebView", "Consultez le support API et les informations de l'appareil"]),
  ("fr-CA", ["Testeur WebView", "Testez WKWebView &amp; SafariVC instantanément",
    "Outils de développement intégrés", "Console, Réseau, Stockage et plus encore",
    "Personnaliser les paramètres", "Ajustez les options pour des tests précis",
    "Fonctionnalités WebView", "Consultez le support API et les informations de l'appareil"]),
  ("es-ES", ["Probador WebView", "Pruebe WKWebView y SafariVC al instante",
    "Herramientas de desarrollo integradas", "Consola, Red, Almacenamiento y más",
    "Personalizar ajustes", "Ajuste las opciones para pruebas precisas",
    "Funciones WebView", "Consulte el soporte API e información del dispositivo"]),
  ("es-MX", ["Probador WebView", "Pruebe WKWebView y SafariVC al instante",
    "Herramientas de desarrollo integradas", "Consola, Red, Almacenamiento y más",
    "Personalizar configuración", "Ajuste las opciones para pruebas precisas",
    "Funciones WebView", "Consulte el soporte API e información del dispositivo"]),
  ("pt-BR", ["Testador WebView", "Teste WKWebView e SafariVC instantaneamente",
    "Ferramentas de desenvolvimento integradas", "Console, Rede, Armazenamento e mais",
    "Personalizar configurações", "Ajuste as opções para testes precisos",
    "Funcionalidades WebView", "Verifique o suporte de API e informações do dispositivo"]),
  ("pt-PT", ["Testador WebView", "Teste WKWebView e SafariVC instantaneamente",
    "Ferramentas de desenvolvimento integradas", "Consola, Rede, Armazenamento e mais",
    "Personalizar definições", "Ajuste as opções para testes precisos",
    "Funcionalidades WebView", "Verifique o suporte de API e informações do dispositivo"]),
  ("it", ["Tester WebView", "Testi WKWebView e SafariVC all'istante",
    "Strumenti di sviluppo integrati", "Console, Rete, Archiviazione e altro",
    "Personalizza impostazioni", "Regoli le opzioni per test precisi",
    "Funzionalità WebView", "Verifichi il supporto API e le info del dispositivo"]),
  ("nl-NL", ["WebView Tester", "Test WKWebView &amp; SafariVC direct",
    "Ingebouwde ontwikkelaarstools", "Console, Netwerk, Opslag en meer",
    "Instellingen aanpassen", "Pas de opties aan voor nauwkeurig testen",
    "WebView Mogelijkheden", "Bekijk API-ondersteuning en apparaatinformatie"]),
  ("ru", ["Тестер WebView", "Тестируйте WKWebView и SafariVC мгновенно",
    "Встроенные инструменты разработчика", "Консоль, Сеть, Хранилище и многое другое",
    "Настройка параметров", "Настройте параметры для точного тестирования",
    "Возможности WebView", "Проверьте поддержку API и информацию об устройстве"]),
  ("uk", ["Тестер WebView", "Тестуйте WKWebView та SafariVC миттєво",
    "Вбудовані інструменти розробника", "Консоль, Мережа, Сховище та багато іншого",
    "Налаштування параметрів", "Налаштуйте параметри для точного тестування",
    "Можливості WebView", "Перевірте підтримку API та інформацію про пристрій"]),
  ("pl", ["Tester WebView", "Proszę przetestować WKWebView i SafariVC natychmiast",
    "Wbudowane narzędzia deweloperskie", "Konsola, Sieć, Pamięć i wiele więcej",
    "Dostosuj ustawienia", "Proszę dostosować opcje dla precyzyjnych testów",
    "Funkcje WebView", "Proszę sprawdzić obsługę API i informacje o urządzeniu"]),
  ("tr", ["WebView Test Aracı", "WKWebView ve SafariVC'yi hemen test ediniz",
    "Yerleşik Geliştirici Araçları", "Konsol, Ağ, Depolama ve daha fazlası",
    "Ayarları Özelleştirin", "Hassas test için seçenekleri ayarlayınız",
    "WebView Özellikleri", "API desteğini ve cihaz bilgisini kontrol ediniz"]),
  ("ar-SA", ["مختبر WebView", "اختبر WKWebView و SafariVC فوراً",
    "أدوات المطور المدمجة", "وحدة التحكم والشبكة والتخزين والمزيد",
    "تخصيص الإعدادات", "اضبط الخيارات للاختبار الدقيق",
    "إمكانيات WebView", "تحقق من دعم API ومعلومات الجهاز"]),
  ("he", ["בודק WebView", "בדקו WKWebView ו-SafariVC מיידית",
    "כלי פיתוח מובנים", "קונסול, רשת, אחסון ועוד",
    "התאמת הגדרות", "כוונו את האפשרויות לבדיקות מדויקות",
    "יכולות WebView", "בדקו את תמיכת API ומידע על המכשיר"]),
  ("hi", ["WebView टेस्टर", "WKWebView और SafariVC को तुरंत टेस्ट करें",
    "बिल्ट-इन डेवटूल्स", "कंसोल, नेटवर्क, स्टोरेज और भी बहुत कुछ",
    "सेटिंग्स अनुकूलित करें", "सटीक परीक्षण के लिए विकल्पों को समायोजित करें",
    "WebView क्षमताएं", "API सपोर्ट और डिवाइस जानकारी देखें"]),
  ("th", ["WebView Tester", "ทดสอบ WKWebView และ SafariVC ได้ทันทีครับ",
    "เครื่องมือนักพัฒนาในตัว", "คอนโซล เครือข่าย พื้นที่จัดเก็บ และอื่นๆ",
    "ปรับแต่งการตั้งค่า", "ปรับตัวเลือกสำหรับการทดสอบที่แม่นยำครับ",
    "ความสามารถ WebView", "ตรวจสอบการรองรับ API และข้อมูลอุปกรณ์ครับ"]),
  ("vi", ["Công cụ thử nghiệm WebView", "Thử nghiệm WKWebView &amp; SafariVC ngay lập tức",
    "Công cụ phát triển tích hợp", "Console, Mạng, Lưu trữ và nhiều tính năng khác",
    "Tùy chỉnh cài đặt", "Điều chỉnh các tùy chọn để thử nghiệm chính xác",
    "Khả năng WebView", "Kiểm tra hỗ trợ API và thông tin thiết bị"]),
  ("id", ["Penguji WebView", "Uji WKWebView &amp; SafariVC secara instan",
    "Alat Pengembang Bawaan", "Console, Jaringan, Penyimpanan, dan lainnya",
    "Sesuaikan Pengaturan", "Sesuaikan opsi untuk pengujian yang presisi",
    "Kemampuan WebView", "Periksa dukungan API dan informasi perangkat"]),
  ("ms", ["Penguji WebView", "Uji WKWebView &amp; SafariVC dengan serta-merta",
    "Alat Pembangun Terbina Dalam", "Konsol, Rangkaian, Storan dan banyak lagi",
    "Sesuaikan Tetapan", "Laraskan pilihan untuk ujian yang tepat",
    "Keupayaan WebView", "Semak sokongan API dan maklumat peranti"]),
  ("da", ["WebView Tester", "Test WKWebView og SafariVC øjeblikkeligt",
    "Indbyggede udviklerværktøjer", "Konsol, Netværk, Lagring og meget mere",
    "Tilpas indstillinger", "Juster indstillingerne for præcis testning",
    "WebView-funktioner", "Se API-understøttelse og enhedsoplysninger"]),
  ("sv", ["WebView Testare", "Testa WKWebView och SafariVC omedelbart",
    "Inbyggda utvecklarverktyg", "Konsol, Nätverk, Lagring och mycket mer",
    "Anpassa inställningar", "Justera alternativen för exakt testning",
    "WebView Funktioner", "Se API-stöd och enhetsinformation"]),
  ("no", ["WebView Tester", "Test WKWebView og SafariVC umiddelbart",
    "Innebygde utviklerverktøy", "Konsoll, Nettverk, Lagring og mye mer",
    "Tilpass innstillinger", "Juster alternativene for presis testing",
    "WebView Funksjoner", "Se API-støtte og enhetsinformasjon"]),
  ("fi", ["WebView Testaaja", "Testatkaa WKWebView ja SafariVC heti",
    "Sisäänrakennetut kehitystyökalut", "Konsoli, Verkko, Tallennustila ja paljon muuta",
    "Mukauta asetuksia", "Säätäkää vaihtoehdot tarkkaan testaukseen",
    "WebView-ominaisuudet", "Tarkistakaa API-tuki ja laitetiedot"]),
  ("cs", ["WebView Tester", "Otestujte WKWebView a SafariVC okamžitě",
    "Vestavěné vývojářské nástroje", "Konzole, Síť, Úložiště a mnoho dalšího",
    "Přizpůsobit nastavení", "Upravte možnosti pro přesné testování",
    "Funkce WebView", "Zkontrolujte podporu API a informace o zařízení"]),
  ("sk", ["WebView Tester", "Otestujte WKWebView a SafariVC okamžite",
    "Vstavané vývojárske nástroje", "Konzola, Sieť, Úložisko a oveľa viac",
    "Prispôsobiť nastavenia", "Upravte možnosti pre presné testovanie",
    "Funkcie WebView", "Skontrolujte podporu API a informácie o zariadení"]),
  ("hu", ["WebView Tesztelő", "Tesztelje a WKWebView-t és SafariVC-t azonnal",
    "Beépített fejlesztőeszközök", "Konzol, Hálózat, Tárhely és még sok más",
    "Beállítások testreszabása", "Állítsa be az opciókat a pontos teszteléshez",
    "WebView Képességek", "Ellenőrizze az API támogatást és az eszközinformációt"]),
  ("ro", ["Tester WebView", "Testați WKWebView și SafariVC instantaneu",
    "Instrumente de dezvoltator integrate", "Consolă, Rețea, Stocare și multe altele",
    "Personalizare setări", "Ajustați opțiunile pentru testare precisă",
    "Funcționalități WebView", "Verificați suportul API și informațiile dispozitivului"]),
  ("el", ["Δοκιμαστής WebView", "Δοκιμάστε WKWebView &amp; SafariVC αμέσως",
    "Ενσωματωμένα εργαλεία ανάπτυξης", "Κονσόλα, Δίκτυο, Αποθήκευση και πολλά άλλα",
    "Προσαρμογή ρυθμίσεων", "Προσαρμόστε τις επιλογές για ακριβείς δοκιμές",
    "Δυνατότητες WebView", "Ελέγξτε την υποστήριξη API και τις πληροφορίες συσκευής"]),
  ("hr", ["WebView Tester", "Testirajte WKWebView i SafariVC odmah",
    "Ugrađeni razvojni alati", "Konzola, Mreža, Pohrana i još mnogo toga",
    "Prilagodite postavke", "Podesite opcije za precizno testiranje",
    "WebView Mogućnosti", "Provjerite podršku za API i informacije o uređaju"]),
  ("ca", ["Provador WebView", "Proveu WKWebView i SafariVC a l'instant",
    "Eines de desenvolupador integrades", "Consola, Xarxa, Emmagatzematge i molt més",
    "Personalitzar configuració", "Ajusteu les opcions per a proves precises",
    "Funcionalitats WebView", "Consulteu el suport d'API i la informació del dispositiu"])]

-- ### The renderer

/-- The replacements performed in the body of the iPhone loop, selected by the
`if i == 1 / elif i == 2 / elif i == 3` chain of the source. -/
def replacePhone (i : Nat) (v : Texts) (content : String) : String :=
  if i = 1 then
    pyReplace (pyReplace content (">" ++ (originals.title1 ++ "<")) (">" ++ (v.title1 ++ "<")))
      (">" ++ (originals.desc1 ++ "<")) (">" ++ (v.desc1 ++ "<"))
  else if i = 2 then
    pyReplace (pyReplace content (">" ++ (originals.title2 ++ "<")) (">" ++ (v.title2 ++ "<")))
      (">" ++ (originals.desc2 ++ "<")) (">" ++ (v.desc2 ++ "<"))
  else if i = 3 then
    pyReplace (pyReplace content (">" ++ (originals.title3 ++ "<")) (">" ++ (v.title3 ++ "<")))
      (">" ++ (originals.desc3 ++ "<")) (">" ++ (v.desc3 ++ "<"))
  else content

/-- The replacements performed in the body of the iPad loop: slots 1 and 2 use
the same pairs as the phone loop, slot 3 uses the `title_ipad3`/`desc_ipad3`
pair. -/
def replaceIpad (i : Nat) (v : Texts) (content : String) : String :=
  if i = 1 then
    pyReplace (pyReplace content (">" ++ (originals.title1 ++ "<")) (">" ++ (v.title1 ++ "<")))
      (">" ++ (originals.desc1 ++ "<")) (">" ++ (v.desc1 ++ "<"))
  else if i = 2 then
    pyReplace (pyReplace content (">" ++ (originals.title2 ++ "<")) (">" ++ (v.title2 ++ "<")))
      (">" ++ (originals.desc2 ++ "<")) (">" ++ (v.desc2 ++ "<"))
  else if i = 3 then
    pyReplace (pyReplace content (">" ++ (originals.title_ipad3 ++ "<")) (">" ++ (v.title_ipad3 ++ "<")))
      (">" ++ (originals.desc_ipad3 ++ "<")) (">" ++ (v.desc_ipad3 ++ "<"))
  else content

/-- Source path `f"en/{i}.svg"` of the iPhone loop. -/
def phoneSrc (i : Nat) : String := "en/" ++ (Nat.repr i ++ ".svg")

/-- Destination path `f"{lang}/{i}.svg"` of the iPhone loop. -/
def phoneDst (lang : String) (i : Nat) : String := lang ++ ("/" ++ (Nat.repr i ++ ".svg"))

/-- Source path `f"en/ipad-{i}.svg"` of the iPad loop. -/
def ipadSrc (i : Nat) : String := "en/ipad-" ++ (Nat.repr i ++ ".svg")

/-- Destination path `f"{lang}/ipad-{i}.svg"` of the iPad loop. -/
def ipadDst (lang : String) (i : Nat) : String := lang ++ ("/ipad-" ++ (Nat.repr i ++ ".svg"))

/-- The filesystem: an association list from path to file content. A write
prepends, so `readFile` (first match) sees the latest write; no entry is ever
removed (the script never deletes files). -/
abbrev FS := List (String × String)

/-- Reading a file: `none` models a raised `FileNotFoundError`. -/
def readFile (fs : FS) (p : String) : Option String := List.lookup p fs

/-- Writing a file (mode `"w"`: create or overwrite). -/
def writeFile (fs : FS) (p c : String) : FS := (p, c) :: fs

/-- The errors the script can raise per locale: an I/O error on a missing
source document, or the `ValueError` of a failed 8-way tuple destructuring. -/
inductive Err where
  | ioError
  | valueError

/-- The iPhone loop `for i in [1, 2, 3]` of `main`: read `en/{i}.svg`, apply
the slot's replacements, write `{lang}/{i}.svg`; abort on a failed read,
keeping the files already written. -/
def phoneLoop (lang : String) (v : Texts) : FS → List Nat → FS × Option Err
  | fs, [] => (fs, none)
  | fs, i :: rest =>
    match readFile fs (phoneSrc i) with
    | none => (fs, some Err.ioError)
    | some content =>
      phoneLoop lang v (writeFile fs (phoneDst lang i) (replacePhone i v content)) rest

/-- The iPad loop `for i in [1, 2, 3]` of `main`. -/
def ipadLoop (lang : String) (v : Texts) : FS → List Nat → FS × Option Err
  | fs, [] => (fs, none)
  | fs, i :: rest =>
    match readFile fs (ipadSrc i) with
    | none => (fs, some Err.ioError)
    | some content =>
      ipadLoop lang v (writeFile fs (ipadDst lang i) (replaceIpad i v content)) rest

/-- Processing of one locale: destructure the tuple, then run the iPhone loop
and the iPad loop (directory creation is a no-op in this model). An error
aborts, keeping all files written so far. -/
def stepLang (fs : FS) (lang : String) (texts : List String) : FS × Option Err :=
  match unpack8 texts with
  | none => (fs, some Err.valueError)
  | some v =>
    match phoneLoop lang v fs [1, 2, 3] with
    | (fs1, some e) => (fs1, some e)
    | (fs1, none) => ipadLoop lang v fs1 [1, 2, 3]

/-- The `for lang, texts in TRANSLATIONS.items()` loop, over an arbitrary list
of entries: process locales in order, stopping at the first error with the
filesystem as of the failure (no cleanup). -/
def runLocales : FS → List (String × List String) → FS × Option Err
  | fs, [] => (fs, none)
  | fs, e :: rest =>
    match stepLang fs e.1 e.2 with
    | (fs1, none) => runLocales fs1 rest
    | (fs1, some err) => (fs1, some err)

/-- One run of the script over the whole translation table. -/
def mainRun (fs : FS) : FS × Option Err := runLocales fs TRANSLATIONS

/-- The six canonical source paths read per locale. -/
def srcPaths : List String :=
  [phoneSrc 1, phoneSrc 2, phoneSrc 3, ipadSrc 1, ipadSrc 2, ipadSrc 3]

/-- The six output paths written for a locale: same six filenames as the
sources, inside the directory named after the locale. -/
def outPaths (lang : String) : List String :=
  [phoneDst lang 1, phoneDst lang 2, phoneDst lang 3,
   ipadDst lang 1, ipadDst lang 2, ipadDst lang 3]

/-- The six filesystem entries a successful locale step prepends (latest write
first), given the six source contents. -/
def langWrites (lang : String) (v : Texts) (c1 c2 c3 e1 e2 e3 : String) : FS :=
  [(ipadDst lang 3, replaceIpad 3 v e3), (ipadDst lang 2, replaceIpad 2 v e2),
   (ipadDst lang 1, replaceIpad 1 v e1), (phoneDst lang 3, replacePhone 3 v c3),
   (phoneDst lang 2, replacePhone 2 v c2), (phoneDst lang 1, replacePhone 1 v c1)]

/-- The entries a successful run over a list of locales prepends, given the
six source contents. -/
def runWrites (c1 c2 c3 e1 e2 e3 : String) : List (String × List String) → FS
  | [] => []
  | (lang, texts) :: rest =>
    runWrites c1 c2 c3 e1 e2 e3 rest ++
      (match unpack8 texts with
       | some v => langWrites lang v c1 c2 c3 e1 e2 e3
       | none => [])

-- ### The six template documents per locale

/-- The six (locale, slot) documents: three phone slots and three tablet
slots. -/
inductive Slot where
  | phone1
  | phone2
  | phone3
  | ipad1
  | ipad2
  | ipad3

/-- The renderer for one document: the replacements the script applies to the
given slot's content. -/
def renderDoc : Slot → Texts → String → String
  | .phone1, v, c => replacePhone 1 v c
  | .phone2, v, c => replacePhone 2 v c
  | .phone3, v, c => replacePhone 3 v c
  | .ipad1, v, c => replaceIpad 1 v c
  | .ipad2, v, c => replaceIpad 2 v c
  | .ipad3, v, c => replaceIpad 3 v c

/-- The canonical title anchor text for a slot. -/
def origTitle : Slot → String
  | .phone1 => originals.title1
  | .phone2 => originals.title2
  | .phone3 => originals.title3
  | .ipad1 => originals.title1
  | .ipad2 => originals.title2
  | .ipad3 => originals.title_ipad3

/-- The canonical description anchor text for a slot. -/
def origDesc : Slot → String
  | .phone1 => originals.desc1
  | .phone2 => originals.desc2
  | .phone3 => originals.desc3
  | .ipad1 => originals.desc1
  | .ipad2 => originals.desc2
  | .ipad3 => originals.desc_ipad3

/-- The translated title a slot receives from the locale's tuple. -/
def transTitle : Slot → Texts → String
  | .phone1, v => v.title1
  | .phone2, v => v.title2
  | .phone3, v => v.title3
  | .ipad1, v => v.title1
  | .ipad2, v => v.title2
  | .ipad3, v => v.title_ipad3

/-- The translated description a slot receives from the locale's tuple. -/
def transDesc : Slot → Texts → String
  | .phone1, v => v.desc1
  | .phone2, v => v.desc2
  | .phone3, v => v.desc3
  | .ipad1, v => v.desc1
  | .ipad2, v => v.desc2
  | .ipad3, v => v.desc_ipad3


-- ### Concrete fixtures used to instantiate the theorems

/-- The tuple of the `"ko"` entry of `TRANSLATIONS`. -/
def koTuple : List String :=
  ["WebView 테스터", "WKWebView와 SafariVC를 바로 테스트하세요",
   "내장 개발자 도구", "콘솔, 네트워크, 저장소 등을 확인하세요",
   "설정 커스터마이즈", "세밀한 테스트를 위해 옵션을 조정하세요",
   "WebView 기능", "API 지원과 기기 정보를 확인하세요"]

/-- The destructured `"ko"` tuple. -/
def koTexts : Texts :=
  ⟨"WebView 테스터", "WKWebView와 SafariVC를 바로 테스트하세요",
   "내장 개발자 도구", "콘솔, 네트워크, 저장소 등을 확인하세요",
   "설정 커스터마이즈", "세밀한 테스트를 위해 옵션을 조정하세요",
   "WebView 기능", "API 지원과 기기 정보를 확인하세요"⟩

/-- A miniature phone slot-1 template: both anchors occur exactly once. -/
def demoDoc : String := "x>WebView Tester<y>Test WKWebView &amp; SafariVC instantly<z"

/-- A miniature tablet slot-3 template. -/
def ipadDoc : String := "x>WebView Capabilities<y>Check API support and device info<z"

/-- A document with the slot-1 title anchor occurring twice and no
description anchor. -/
def dupDoc : String := "x>WebView Tester<y>WebView Tester<z"

/-- A miniature source tree holding the six canonical documents. -/
def demoFs : FS :=
  [("en/1.svg", "a"), ("en/2.svg", "b"), ("en/3.svg", "c"),
   ("en/ipad-1.svg", "d"), ("en/ipad-2.svg", "e"), ("en/ipad-3.svg", "f")]

-- ### Basic helper lemmas

theorem strExt : ∀ {a b : String}, a.data = b.data → a = b := by
  intro a b h
  cases a
  cases b
  simp only at h
  rw [h]

theorem dataApp (a b : String) : (a ++ b).data = a.data ++ b.data := by
  cases a
  cases b
  rfl

theorem appNe (a : String) {x y : String} (h : x ≠ y) : a ++ x ≠ a ++ y := by
  intro heq
  apply h
  apply strExt
  have := congrArg String.data heq
  rw [dataApp, dataApp] at this
  exact List.append_cancel_left this

theorem wrapL_eq (s : String) : wrapL s = '>' :: (s.data ++ ['<']) := by
  show ((">" : String) ++ (s ++ "<")).data = _
  rw [dataApp, dataApp]
  rfl

theorem wrapL_ne_nil (s : String) : wrapL s ≠ [] := by
  rw [wrapL_eq]
  simp

-- ### Step lemmas for `replaceAll`

theorem replMono (pat rep : List Char) :
    ∀ f1 f2 l, l.length ≤ f1 → l.length ≤ f2 →
      replLoop pat rep f1 l = replLoop pat rep f2 l := by
  intro f1
  induction f1 with
  | zero =>
    intro f2 l h1 _
    have hl : l = [] := List.eq_nil_of_length_eq_zero (Nat.le_zero.mp h1)
    subst hl
    cases f2 <;> rfl
  | succ g ih =>
    intro f2 l h1 h2
    cases l with
    | nil => cases f2 <;> rfl
    | cons c cs =>
      cases f2 with
      | zero => simp at h2
      | succ f =>
        simp only [replLoop]
        by_cases hc : pat ≠ [] ∧ (c :: cs).take pat.length = pat
        · rw [if_pos hc, if_pos hc]
          have hplen : 1 ≤ pat.length := by
            cases pat with
            | nil => exact absurd rfl hc.1
            | cons a as => simp
          have hlen : ((c :: cs).drop pat.length).length ≤ cs.length := by
            simp only [List.length_drop, List.length_cons]
            omega
          simp only [List.length_cons] at h1 h2
          congr 1
          exact ih f _ (by omega) (by omega)
        · rw [if_neg hc, if_neg hc]
          simp only [List.length_cons] at h1 h2
          congr 1
          exact ih f cs (by omega) (by omega)

theorem replaceAll_nil (pat rep : List Char) : replaceAll [] pat rep = [] := rfl

theorem replaceAll_pos (pat rep : List Char) (c : Char) (cs : List Char)
    (hp : pat ≠ []) (ht : (c :: cs).take pat.length = pat) :
    replaceAll (c :: cs) pat rep = rep ++ replaceAll ((c :: cs).drop pat.length) pat rep := by
  have hplen : 1 ≤ pat.length := by
    cases pat with
    | nil => exact absurd rfl hp
    | cons a as => simp
  show replLoop pat rep (cs.length + 1) (c :: cs) = _
  simp only [replLoop]
  rw [if_pos ⟨hp, ht⟩]
  congr 1
  apply replMono
  · simp only [List.length_drop, List.length_cons]
    omega
  · exact Nat.le_refl _

theorem replaceAll_neg (pat rep : List Char) (c : Char) (cs : List Char)
    (hc : ¬(pat ≠ [] ∧ (c :: cs).take pat.length = pat)) :
    replaceAll (c :: cs) pat rep = c :: replaceAll cs pat rep := by
  show replLoop pat rep (cs.length + 1) (c :: cs) = _
  simp only [replLoop]
  rw [if_neg hc]
  rfl

-- ### Occurrence predicates: bridges to explicit decompositions

theorem isPfx_iff : ∀ (a b : List Char), isPfx a b = true ↔ ∃ t, a ++ t = b := by
  intro a
  induction a with
  | nil =>
    intro b
    simp [isPfx]
  | cons x xs ih =>
    intro b
    cases b with
    | nil =>
      simp [isPfx]
    | cons y ys =>
      simp only [isPfx, Bool.and_eq_true, beq_iff_eq]
      constructor
      · rintro ⟨rfl, h⟩
        obtain ⟨t, ht⟩ := (ih ys).mp h
        exact ⟨t, by rw [List.cons_append, ht]⟩
      · rintro ⟨t, ht⟩
        rw [List.cons_append] at ht
        injection ht with h1 h2
        exact ⟨h1, (ih ys).mpr ⟨t, h2⟩⟩

theorem occursIn_iff (pat : List Char) :
    ∀ l, occursIn pat l = true ↔ ∃ s t, s ++ (pat ++ t) = l := by
  intro l
  induction l with
  | nil =>
    simp only [occursIn, List.isEmpty_iff]
    constructor
    · rintro rfl
      exact ⟨[], [], rfl⟩
    · rintro ⟨s, t, h⟩
      rcases List.append_eq_nil.mp h with ⟨rfl, h2⟩
      exact (List.append_eq_nil.mp h2).1
  | cons c cs ih =>
    simp only [occursIn, Bool.or_eq_true, beq_iff_eq]
    constructor
    · rintro (h | h)
      · refine ⟨[], (c :: cs).drop pat.length, ?_⟩
        have hsplit := List.take_append_drop pat.length (c :: cs)
        rw [h] at hsplit
        rw [List.nil_append]
        exact hsplit
      · obtain ⟨s, t, ht⟩ := ih.mp h
        exact ⟨c :: s, t, by rw [List.cons_append, ht]⟩
    · rintro ⟨s, t, h⟩
      cases s with
      | nil =>
        left
        rw [List.nil_append] at h
        rw [← h]
        exact List.take_left _ _
      | cons c2 s2 =>
        right
        rw [List.cons_append] at h
        injection h with h1 h2
        exact ih.mpr ⟨s2, t, h2⟩

theorem occursIn_of_parts (pat : List Char) {l : List Char} (s t : List Char)
    (h : s ++ (pat ++ t) = l) : occursIn pat l = true :=
  (occursIn_iff pat l).mpr ⟨s, t, h⟩

theorem occursIn_false_parts (pat : List Char) {l : List Char}
    (h : occursIn pat l = false) : ∀ s t, s ++ (pat ++ t) ≠ l := by
  intro s t heq
  have := occursIn_of_parts pat s t heq
  rw [h] at this
  exact Bool.noConfusion this

theorem occursIn_cons_false {pat : List Char} {c : Char} {cs : List Char}
    (h : occursIn pat (c :: cs) = false) :
    ((c :: cs).take pat.length == pat) = false ∧ occursIn pat cs = false := by
  have h' := h
  simp only [occursIn, Bool.or_eq_false_iff] at h'
  exact h'

theorem occCons {pat : List Char} {c : Char} {cs : List Char}
    (h : occursIn pat (c :: cs) = true) :
    (∃ y, pat ++ y = c :: cs) ∨ occursIn pat cs = true := by
  obtain ⟨s, t, hst⟩ := (occursIn_iff _ _).mp h
  cases s with
  | nil =>
    left
    rw [List.nil_append] at hst
    exact ⟨t, hst⟩
  | cons a s2 =>
    right
    rw [List.cons_append] at hst
    injection hst with h1 h2
    exact (occursIn_iff _ _).mpr ⟨s2, t, h2⟩

theorem occDropFalse {pat l : List Char} (h : occursIn pat l = false) (n : Nat) :
    occursIn pat (l.drop n) = false := by
  cases hb : occursIn pat (l.drop n) with
  | false => rfl
  | true =>
    exfalso
    obtain ⟨s, t, hst⟩ := (occursIn_iff _ _).mp hb
    refine occursIn_false_parts pat h (l.take n ++ s) t ?_
    rw [List.append_assoc, hst]
    exact List.take_append_drop n l

-- ### Replacement lemmas: no occurrence, and substitution across a split

theorem replNone {pat : List Char} (rep : List Char) (hp : pat ≠ []) :
    ∀ l, occursIn pat l = false → replaceAll l pat rep = l := by
  intro l
  induction l with
  | nil => intro _; rfl
  | cons c cs ih =>
    intro h
    obtain ⟨h1, h2⟩ := occursIn_cons_false h
    rw [replaceAll_neg pat rep c cs (fun hand => ne_of_beq_false h1 hand.2), ih h2]

theorem replAcross {pat : List Char} (rep : List Char) (hp : pat ≠ []) :
    ∀ (A B : List Char),
      (∀ i, i < A.length → matchAt pat (A ++ (pat ++ B)) i = false) →
      replaceAll (A ++ (pat ++ B)) pat rep = A ++ (rep ++ replaceAll B pat rep) := by
  intro A
  induction A with
  | nil =>
    intro B _
    cases pat with
    | nil => exact absurd rfl hp
    | cons p0 pt =>
      rw [List.nil_append, List.nil_append]
      have e1 : (p0 :: pt) ++ B = p0 :: (pt ++ B) := List.cons_append p0 pt B
      rw [e1]
      rw [replaceAll_pos (p0 :: pt) rep p0 (pt ++ B) hp
        (by rw [← e1]; exact List.take_left _ _)]
      congr 1
      have e2 : (p0 :: (pt ++ B)).drop (p0 :: pt).length = B := by
        rw [← e1]
        exact List.drop_left _ _
      rw [e2]
  | cons a A2 ih =>
    intro B h
    have h0 := h 0 (by simp)
    have hne : ((a :: A2) ++ (pat ++ B)).take pat.length ≠ pat := by
      have := ne_of_beq_false h0
      simpa [matchAt] using this
    rw [List.cons_append]
    rw [replaceAll_neg pat rep a (A2 ++ (pat ++ B))
      (fun hand => hne (by rw [List.cons_append]; exact hand.2))]
    rw [List.cons_append, ih B ?_]
    intro i hi
    have := h (i + 1) (by simp; omega)
    simpa [matchAt, List.cons_append, List.drop_succ_cons] using this

theorem doubleShape (p q r A B A2 B2 : List Char) (hA : A ≠ []) (hB : B ≠ [])
    (h1 : ∀ i, i < p.length → matchAt A (p ++ (A ++ (q ++ (B ++ r)))) i = false)
    (h2 : occursIn A (q ++ (B ++ r)) = false)
    (h3 : ∀ i, i < (p ++ (A2 ++ q)).length →
        matchAt B (p ++ (A2 ++ (q ++ (B ++ r)))) i = false)
    (h4 : occursIn B r = false) :
    replaceAll (replaceAll (p ++ (A ++ (q ++ (B ++ r)))) A A2) B B2
      = p ++ (A2 ++ (q ++ (B2 ++ r))) := by
  rw [replAcross A2 hA p (q ++ (B ++ r)) h1, replNone A2 hA _ h2]
  have e : p ++ (A2 ++ (q ++ (B ++ r))) = (p ++ (A2 ++ q)) ++ (B ++ r) := by
    simp [List.append_assoc]
  rw [e]
  rw [replAcross B2 hB (p ++ (A2 ++ q)) r (by intro i hi; have := h3 i hi; rwa [e] at this)]
  rw [replNone B2 hB r h4]
  simp [List.append_assoc]

-- ### A replaced occurrence cannot be re-created: splitting lemmas

theorem pfxSplit : ∀ (a pat b y : List Char), pat ++ y = a ++ b →
    (∃ z, pat ++ z = a) ∨ (∃ t z, pat = a ++ t ∧ t ++ z = b) := by
  intro a
  induction a with
  | nil =>
    intro pat b y h
    right
    exact ⟨pat, y, rfl, by simpa using h⟩
  | cons c a2 ih =>
    intro pat b y h
    cases pat with
    | nil =>
      left
      exact ⟨c :: a2, rfl⟩
    | cons d pt =>
      rw [List.cons_append, List.cons_append] at h
      injection h with h1 h2
      subst h1
      rcases ih pt b y h2 with ⟨z, hz⟩ | ⟨t, z, ht, hz⟩
      · left
        exact ⟨z, by rw [List.cons_append, hz]⟩
      · right
        exact ⟨t, z, by rw [ht, List.cons_append], hz⟩

theorem occSplit (pat : List Char) (hp : pat ≠ []) :
    ∀ a b, occursIn pat (a ++ b) = true →
      occursIn pat a = true ∨ occursIn pat b = true ∨
        ∃ s t, pat = s ++ t ∧ s ≠ [] ∧ t ≠ [] ∧ (∃ u, u ++ s = a) ∧ (∃ z, t ++ z = b) := by
  intro a
  induction a with
  | nil =>
    intro b h
    right
    left
    simpa using h
  | cons c a2 ih =>
    intro b h
    obtain ⟨x, y, hxy⟩ := (occursIn_iff _ _).mp h
    cases x with
    | nil =>
      rw [List.nil_append] at hxy
      rcases pfxSplit (c :: a2) pat b y hxy with ⟨z, hz⟩ | ⟨t, z, ht, hz⟩
      · left
        exact occursIn_of_parts pat [] z (by simpa using hz)
      · cases t with
        | nil =>
          left
          rw [List.append_nil] at ht
          exact occursIn_of_parts pat [] [] (by rw [List.nil_append, List.append_nil]; exact ht)
        | cons t0 t2 =>
          right
          right
          exact ⟨c :: a2, t0 :: t2, ht, by simp, by simp, ⟨[], rfl⟩, ⟨z, hz⟩⟩
    | cons x0 x2 =>
      rw [List.cons_append] at hxy
      injection hxy with h1 h2
      subst h1
      have h' : occursIn pat (a2 ++ b) = true := (occursIn_iff _ _).mpr ⟨x2, y, h2⟩
      rcases ih b h' with h | h | ⟨s, t, hst, hs, ht, ⟨u, hu⟩, hz⟩
      · left
        obtain ⟨s, t, hst⟩ := (occursIn_iff _ _).mp h
        exact occursIn_of_parts pat (x0 :: s) t (by rw [List.cons_append, hst])
      · right
        left
        exact h
      · right
        right
        exact ⟨s, t, hst, hs, ht, ⟨x0 :: u, by rw [List.cons_append, hu]⟩, hz⟩

theorem sfxWhole {rt : List Char} (hrt : '>' ∉ rt) :
    ∀ u s2, u ++ ('>' :: s2) = '>' :: rt → '>' :: s2 = '>' :: rt := by
  intro u s2 hu
  cases u with
  | nil => simpa using hu
  | cons a u2 =>
    exfalso
    rw [List.cons_append] at hu
    injection hu with h1 h2
    apply hrt
    rw [← h2]
    exact List.mem_append_right _ (List.mem_cons_self _ _)

theorem keptPfx (pat rt : List Char) :
    ∀ cs t, (∃ u, t ++ u = replaceAll cs pat ('>' :: rt)) → '>' ∉ t →
      ∃ u2, t ++ u2 = cs := by
  intro cs
  induction cs with
  | nil =>
    rintro t ⟨u, hu⟩ _
    rw [replaceAll_nil] at hu
    rcases List.append_eq_nil.mp hu with ⟨rfl, _⟩
    exact ⟨[], rfl⟩
  | cons c cs2 ih =>
    rintro t ⟨u, hu⟩ hmem
    by_cases hc : pat ≠ [] ∧ (c :: cs2).take pat.length = pat
    · rw [replaceAll_pos pat ('>' :: rt) c cs2 hc.1 hc.2] at hu
      cases t with
      | nil => exact ⟨c :: cs2, rfl⟩
      | cons t0 t2 =>
        exfalso
        rw [List.cons_append, List.cons_append] at hu
        injection hu with h1 _
        subst h1
        exact hmem (List.mem_cons_self _ _)
    · rw [replaceAll_neg pat ('>' :: rt) c cs2 hc] at hu
      cases t with
      | nil => exact ⟨c :: cs2, rfl⟩
      | cons t0 t2 =>
        rw [List.cons_append] at hu
        injection hu with h1 h2
        subst h1
        obtain ⟨u2, hu2⟩ := ih t2 ⟨u, h2⟩ (fun hm => hmem (List.mem_cons_of_mem _ hm))
        exact ⟨u2, by rw [List.cons_append, hu2]⟩

-- ### After replacing an anchor, the anchor is gone and no new one appears

theorem noPatAfter (pt rt : List Char) (hpt : '>' ∉ pt) (hrt : '>' ∉ rt)
    (hocc : occursIn ('>' :: pt) ('>' :: rt) = false)
    (hpf : isPfx ('>' :: rt) ('>' :: pt) = false) :
    ∀ n l, l.length ≤ n →
      occursIn ('>' :: pt) (replaceAll l ('>' :: pt) ('>' :: rt)) = false := by
  intro n
  induction n with
  | zero =>
    intro l h
    have hl : l = [] := List.eq_nil_of_length_eq_zero (Nat.le_zero.mp h)
    subst hl
    rfl
  | succ m ih =>
    intro l hlen
    cases l with
    | nil => rfl
    | cons c cs =>
      by_cases hc : ('>' :: pt) ≠ [] ∧ (c :: cs).take ('>' :: pt).length = ('>' :: pt)
      · rw [replaceAll_pos _ _ c cs hc.1 hc.2]
        cases hb : occursIn ('>' :: pt)
            (('>' :: rt) ++ replaceAll ((c :: cs).drop ('>' :: pt).length) ('>' :: pt) ('>' :: rt)) with
        | false => rfl
        | true =>
          exfalso
          rcases occSplit ('>' :: pt) (by simp) _ _ hb with h | h | ⟨s, t, hst, hs, ht, ⟨u, hu⟩, _⟩
          · rw [hocc] at h
            exact Bool.noConfusion h
          · have hdlen : ((c :: cs).drop ('>' :: pt).length).length ≤ m := by
              simp only [List.length_drop, List.length_cons] at *
              omega
            rw [ih _ hdlen] at h
            exact Bool.noConfusion h
          · cases s with
            | nil => exact hs rfl
            | cons s0 s2 =>
              have hs0 : s0 = '>' := by
                rw [List.cons_append] at hst
                injection hst with h1 _
                exact h1.symm
              subst hs0
              have hsw := sfxWhole hrt u s2 hu
              have hcontra : isPfx ('>' :: rt) ('>' :: pt) = true := by
                apply (isPfx_iff _ _).mpr
                exact ⟨t, by rw [← hsw]; exact hst.symm⟩
              rw [hpf] at hcontra
              exact Bool.noConfusion hcontra
      · rw [replaceAll_neg _ _ c cs hc]
        cases hb : occursIn ('>' :: pt) (c :: replaceAll cs ('>' :: pt) ('>' :: rt)) with
        | false => rfl
        | true =>
          exfalso
          rcases occCons hb with ⟨y, hy⟩ | h
          · rw [List.cons_append] at hy
            injection hy with h1 h2
            obtain ⟨u2, hu2⟩ := keptPfx ('>' :: pt) rt cs pt ⟨y, h2⟩ hpt
            apply hc
            refine ⟨by simp, ?_⟩
            rw [← h1, ← hu2]
            simp only [List.length_cons, List.take_succ_cons]
            rw [List.take_left]
          · have hclen : cs.length ≤ m := by
              simp only [List.length_cons] at hlen
              omega
            rw [ih cs hclen] at h
            exact Bool.noConfusion h

theorem noQAfter (qt rt pat : List Char) (hqt : '>' ∉ qt) (hrt : '>' ∉ rt)
    (hocc : occursIn ('>' :: qt) ('>' :: rt) = false)
    (hpf : isPfx ('>' :: rt) ('>' :: qt) = false) :
    ∀ n l, l.length ≤ n → occursIn ('>' :: qt) l = false →
      occursIn ('>' :: qt) (replaceAll l pat ('>' :: rt)) = false := by
  intro n
  induction n with
  | zero =>
    intro l h _
    have hl : l = [] := List.eq_nil_of_length_eq_zero (Nat.le_zero.mp h)
    subst hl
    rfl
  | succ m ih =>
    intro l hlen hfal
    cases l with
    | nil => rfl
    | cons c cs =>
      by_cases hc : pat ≠ [] ∧ (c :: cs).take pat.length = pat
      · rw [replaceAll_pos _ _ c cs hc.1 hc.2]
        cases hb : occursIn ('>' :: qt)
            (('>' :: rt) ++ replaceAll ((c :: cs).drop pat.length) pat ('>' :: rt)) with
        | false => rfl
        | true =>
          exfalso
          rcases occSplit ('>' :: qt) (by simp) _ _ hb with h | h | ⟨s, t, hst, hs, ht, ⟨u, hu⟩, _⟩
          · rw [hocc] at h
            exact Bool.noConfusion h
          · have hplen : 1 ≤ pat.length := by
              cases pat with
              | nil => exact absurd rfl hc.1
              | cons a as => simp
            have hdlen : ((c :: cs).drop pat.length).length ≤ m := by
              simp only [List.length_drop, List.length_cons] at *
              omega
            rw [ih _ hdlen (occDropFalse hfal _)] at h
            exact Bool.noConfusion h
          · cases s with
            | nil => exact hs rfl
            | cons s0 s2 =>
              have hs0 : s0 = '>' := by
                rw [List.cons_append] at hst
                injection hst with h1 _
                exact h1.symm
              subst hs0
              have hsw := sfxWhole hrt u s2 hu
              have hcontra : isPfx ('>' :: rt) ('>' :: qt) = true := by
                apply (isPfx_iff _ _).mpr
                exact ⟨t, by rw [← hsw]; exact hst.symm⟩
              rw [hpf] at hcontra
              exact Bool.noConfusion hcontra
      · rw [replaceAll_neg _ _ c cs hc]
        cases hb : occursIn ('>' :: qt) (c :: replaceAll cs pat ('>' :: rt)) with
        | false => rfl
        | true =>
          exfalso
          rcases occCons hb with ⟨y, hy⟩ | h
          · rw [List.cons_append] at hy
            injection hy with h1 h2
            obtain ⟨u2, hu2⟩ := keptPfx pat rt cs qt ⟨y, h2⟩ hqt
            refine occursIn_false_parts _ hfal [] u2 ?_
            rw [List.nil_append, List.cons_append, h1, hu2]
          · obtain ⟨_, hcsf⟩ := occursIn_cons_false hfal
            have hclen : cs.length ≤ m := by
              simp only [List.length_cons] at hlen
              omega
            rw [ih cs hclen hcsf] at h
            exact Bool.noConfusion h

-- ### Filesystem lemmas

theorem readFile_write_self (fs : FS) (p c : String) :
    readFile (writeFile fs p c) p = some c := by
  simp [readFile, writeFile, List.lookup]

theorem readFile_write_ne (fs : FS) (p c q : String) (h : q ≠ p) :
    readFile (writeFile fs p c) q = readFile fs q := by
  simp [readFile, writeFile, List.lookup, beq_eq_false_iff_ne.mpr h]

theorem lookupAppend (p : String) : ∀ (W fs : FS),
    List.lookup p (W ++ fs) = (match List.lookup p W with
      | some c => some c
      | none => List.lookup p fs) := by
  intro W
  induction W with
  | nil => intro fs; simp [List.lookup]
  | cons kc W2 ih =>
    intro fs
    obtain ⟨k, c⟩ := kc
    rw [List.cons_append]
    by_cases h : p = k
    · subst h
      simp [List.lookup]
    · simp only [List.lookup, beq_eq_false_iff_ne.mpr h]
      exact ih fs

theorem lookup_none_notkey (p : String) : ∀ (W : FS), (∀ kc ∈ W, p ≠ kc.1) →
    List.lookup p W = none := by
  intro W
  induction W with
  | nil => intro _; rfl
  | cons kc W2 ih =>
    intro h
    obtain ⟨k, c⟩ := kc
    have h1 : p ≠ k := h (k, c) (List.mem_cons_self _ _)
    simp only [List.lookup, beq_eq_false_iff_ne.mpr h1]
    exact ih (fun kc2 hm => h kc2 (List.mem_cons_of_mem _ hm))

theorem readFile_append_skip (p : String) (W fs : FS) (h : ∀ kc ∈ W, p ≠ kc.1) :
    readFile (W ++ fs) p = readFile fs p := by
  show List.lookup p (W ++ fs) = _
  rw [lookupAppend, lookup_none_notkey p W h]
  rfl

theorem readFile_append_some (p : String) (W fs : FS) (c : String)
    (h : List.lookup p W = some c) : readFile (W ++ fs) p = some c := by
  show List.lookup p (W ++ fs) = _
  rw [lookupAppend, h]

-- ### Evaluating the loops of `main`

theorem phoneLoop_nilEq (lang : String) (v : Texts) (fs : FS) :
    phoneLoop lang v fs [] = (fs, none) := rfl

theorem phoneLoop_cons (lang : String) (v : Texts) (fs : FS) (i : Nat) (rest : List Nat)
    (c : String) (h : readFile fs (phoneSrc i) = some c) :
    phoneLoop lang v fs (i :: rest)
      = phoneLoop lang v (writeFile fs (phoneDst lang i) (replacePhone i v c)) rest := by
  simp [phoneLoop, h]

theorem phoneLoop_err (lang : String) (v : Texts) (fs : FS) (i : Nat) (rest : List Nat)
    (h : readFile fs (phoneSrc i) = none) :
    phoneLoop lang v fs (i :: rest) = (fs, some Err.ioError) := by
  simp [phoneLoop, h]

theorem ipadLoop_nilEq (lang : String) (v : Texts) (fs : FS) :
    ipadLoop lang v fs [] = (fs, none) := rfl

theorem ipadLoop_cons (lang : String) (v : Texts) (fs : FS) (i : Nat) (rest : List Nat)
    (c : String) (h : readFile fs (ipadSrc i) = some c) :
    ipadLoop lang v fs (i :: rest)
      = ipadLoop lang v (writeFile fs (ipadDst lang i) (replaceIpad i v c)) rest := by
  simp [ipadLoop, h]

theorem ipadLoop_err (lang : String) (v : Texts) (fs : FS) (i : Nat) (rest : List Nat)
    (h : readFile fs (ipadSrc i) = none) :
    ipadLoop lang v fs (i :: rest) = (fs, some Err.ioError) := by
  simp [ipadLoop, h]

theorem stepLang_eq (fs : FS) (lang : String) (texts : List String) (v : Texts)
    (c1 c2 c3 e1 e2 e3 : String)
    (hv : unpack8 texts = some v)
    (hd : ∀ s ∈ srcPaths, s ∉ outPaths lang)
    (h1 : readFile fs (phoneSrc 1) = some c1)
    (h2 : readFile fs (phoneSrc 2) = some c2)
    (h3 : readFile fs (phoneSrc 3) = some c3)
    (h4 : readFile fs (ipadSrc 1) = some e1)
    (h5 : readFile fs (ipadSrc 2) = some e2)
    (h6 : readFile fs (ipadSrc 3) = some e3) :
    stepLang fs lang texts = (langWrites lang v c1 c2 c3 e1 e2 e3 ++ fs, none) := by
  have key : ∀ (p : String), p ∈ srcPaths → ∀ (d : String), d ∈ outPaths lang →
      ∀ (fsx : FS) (c : String), readFile ((d, c) :: fsx) p = readFile fsx p := by
    intro p hp d hdm fsx c
    exact readFile_write_ne fsx d c p (fun heq => hd p hp (heq ▸ hdm))
  simp [stepLang, hv, phoneLoop, ipadLoop, key, h1, h2, h3, h4, h5, h6,
    srcPaths, outPaths, langWrites, writeFile]

-- ### Run-level lemmas

theorem langWrites_keys (lang : String) (v : Texts) (c1 c2 c3 e1 e2 e3 : String) :
    ∀ kc ∈ langWrites lang v c1 c2 c3 e1 e2 e3, kc.1 ∈ outPaths lang := by
  intro kc hm
  simp only [langWrites, List.mem_cons, List.not_mem_nil, or_false] at hm
  rcases hm with h | h | h | h | h | h <;> rw [h] <;> simp [outPaths]

theorem runLocales_cons_ok (fs fs1 : FS) (e : String × List String)
    (rest : List (String × List String)) (h : stepLang fs e.1 e.2 = (fs1, none)) :
    runLocales fs (e :: rest) = runLocales fs1 rest := by
  obtain ⟨lang, texts⟩ := e
  simp [runLocales, h]

theorem runLocales_cons_err (fs fs1 : FS) (e : String × List String)
    (rest : List (String × List String)) (err : Err)
    (h : stepLang fs e.1 e.2 = (fs1, some err)) :
    runLocales fs (e :: rest) = (fs1, some err) := by
  obtain ⟨lang, texts⟩ := e
  simp [runLocales, h]

theorem runLocales_eq (c1 c2 c3 e1 e2 e3 : String) :
    ∀ (L : List (String × List String)) (fs : FS),
      (∀ e ∈ L, (unpack8 e.2).isSome ∧ ∀ s ∈ srcPaths, s ∉ outPaths e.1) →
      readFile fs (phoneSrc 1) = some c1 → readFile fs (phoneSrc 2) = some c2 →
      readFile fs (phoneSrc 3) = some c3 → readFile fs (ipadSrc 1) = some e1 →
      readFile fs (ipadSrc 2) = some e2 → readFile fs (ipadSrc 3) = some e3 →
      runLocales fs L = (runWrites c1 c2 c3 e1 e2 e3 L ++ fs, none) := by
  intro L
  induction L with
  | nil =>
    intro fs _ _ _ _ _ _ _
    simp [runLocales, runWrites]
  | cons e rest ih =>
    intro fs hL h1 h2 h3 h4 h5 h6
    obtain ⟨lang, texts⟩ := e
    have he := hL (lang, texts) (List.mem_cons_self _ _)
    obtain ⟨v, hv⟩ := Option.isSome_iff_exists.mp he.1
    have hstep := stepLang_eq fs lang texts v c1 c2 c3 e1 e2 e3 hv he.2 h1 h2 h3 h4 h5 h6
    have hskip : ∀ p, p ∈ srcPaths →
        readFile (langWrites lang v c1 c2 c3 e1 e2 e3 ++ fs) p = readFile fs p := by
      intro p hp
      apply readFile_append_skip
      intro kc hkc heq
      exact he.2 p hp (heq ▸ langWrites_keys lang v c1 c2 c3 e1 e2 e3 kc hkc)
    rw [runLocales_cons_ok fs _ (lang, texts) rest hstep]
    rw [ih _ (fun e2 hm => hL e2 (List.mem_cons_of_mem _ hm))
      (by rw [hskip _ (by simp [srcPaths])]; exact h1)
      (by rw [hskip _ (by simp [srcPaths])]; exact h2)
      (by rw [hskip _ (by simp [srcPaths])]; exact h3)
      (by rw [hskip _ (by simp [srcPaths])]; exact h4)
      (by rw [hskip _ (by simp [srcPaths])]; exact h5)
      (by rw [hskip _ (by simp [srcPaths])]; exact h6)]
    simp [runWrites, hv, List.append_assoc]

theorem phoneLoop_writes (lang : String) (v : Texts) :
    ∀ (idx : List Nat) (fs : FS), ∃ W : FS,
      (phoneLoop lang v fs idx).1 = W ++ fs ∧
        ∀ kc ∈ W, ∃ i, i ∈ idx ∧ kc.1 = phoneDst lang i := by
  intro idx
  induction idx with
  | nil =>
    intro fs
    exact ⟨[], rfl, by simp⟩
  | cons i rest ih =>
    intro fs
    cases hr : readFile fs (phoneSrc i) with
    | none =>
      refine ⟨[], ?_, by simp⟩
      rw [phoneLoop_err lang v fs i rest hr]
      rfl
    | some c =>
      obtain ⟨W, hW, hk⟩ := ih (writeFile fs (phoneDst lang i) (replacePhone i v c))
      refine ⟨W ++ [(phoneDst lang i, replacePhone i v c)], ?_, ?_⟩
      · rw [phoneLoop_cons lang v fs i rest c hr, hW]
        simp [writeFile, List.append_assoc]
      · intro kc hm
        rcases List.mem_append.mp hm with hm | hm
        · obtain ⟨j, hj, hkj⟩ := hk kc hm
          exact ⟨j, List.mem_cons_of_mem _ hj, hkj⟩
        · simp only [List.mem_singleton] at hm
          exact ⟨i, List.mem_cons_self _ _, by rw [hm]⟩

theorem ipadLoop_writes (lang : String) (v : Texts) :
    ∀ (idx : List Nat) (fs : FS), ∃ W : FS,
      (ipadLoop lang v fs idx).1 = W ++ fs ∧
        ∀ kc ∈ W, ∃ i, i ∈ idx ∧ kc.1 = ipadDst lang i := by
  intro idx
  induction idx with
  | nil =>
    intro fs
    exact ⟨[], rfl, by simp⟩
  | cons i rest ih =>
    intro fs
    cases hr : readFile fs (ipadSrc i) with
    | none =>
      refine ⟨[], ?_, by simp⟩
      rw [ipadLoop_err lang v fs i rest hr]
      rfl
    | some c =>
      obtain ⟨W, hW, hk⟩ := ih (writeFile fs (ipadDst lang i) (replaceIpad i v c))
      refine ⟨W ++ [(ipadDst lang i, replaceIpad i v c)], ?_, ?_⟩
      · rw [ipadLoop_cons lang v fs i rest c hr, hW]
        simp [writeFile, List.append_assoc]
      · intro kc hm
        rcases List.mem_append.mp hm with hm | hm
        · obtain ⟨j, hj, hkj⟩ := hk kc hm
          exact ⟨j, List.mem_cons_of_mem _ hj, hkj⟩
        · simp only [List.mem_singleton] at hm
          exact ⟨i, List.mem_cons_self _ _, by rw [hm]⟩

theorem stepLang_writes (fs : FS) (lang : String) (texts : List String) :
    ∃ W : FS, (stepLang fs lang texts).1 = W ++ fs ∧ ∀ kc ∈ W, kc.1 ∈ outPaths lang := by
  cases hv : unpack8 texts with
  | none => exact ⟨[], by simp [stepLang, hv], by simp⟩
  | some v =>
    obtain ⟨W1, hW1, hk1⟩ := phoneLoop_writes lang v [1, 2, 3] fs
    cases hres : phoneLoop lang v fs [1, 2, 3] with
    | mk fs1 oerr =>
      rw [hres] at hW1
      cases oerr with
      | some err =>
        refine ⟨W1, ?_, ?_⟩
        · rw [show stepLang fs lang texts = (fs1, some err) from by simp [stepLang, hv, hres]]
          exact hW1
        · intro kc hm
          obtain ⟨i, hi, hki⟩ := hk1 kc hm
          rw [hki]
          simp only [List.mem_cons, List.not_mem_nil, or_false] at hi
          rcases hi with rfl | rfl | rfl <;> simp [outPaths]
      | none =>
        obtain ⟨W2, hW2, hk2⟩ := ipadLoop_writes lang v [1, 2, 3] fs1
        have hW1b : fs1 = W1 ++ fs := hW1
        refine ⟨W2 ++ W1, ?_, ?_⟩
        · rw [show stepLang fs lang texts = ipadLoop lang v fs1 [1, 2, 3] from by
            simp [stepLang, hv, hres]]
          rw [hW2, hW1b, List.append_assoc]
        · intro kc hm
          rcases List.mem_append.mp hm with hm | hm
          · obtain ⟨i, hi, hki⟩ := hk2 kc hm
            rw [hki]
            simp only [List.mem_cons, List.not_mem_nil, or_false] at hi
            rcases hi with rfl | rfl | rfl <;> simp [outPaths]
          · obtain ⟨i, hi, hki⟩ := hk1 kc hm
            rw [hki]
            simp only [List.mem_cons, List.not_mem_nil, or_false] at hi
            rcases hi with rfl | rfl | rfl <;> simp [outPaths]

theorem runLocales_writes :
    ∀ (L : List (String × List String)) (fs : FS), ∃ W : FS,
      (runLocales fs L).1 = W ++ fs ∧ ∀ kc ∈ W, ∃ e ∈ L, kc.1 ∈ outPaths e.1 := by
  intro L
  induction L with
  | nil =>
    intro fs
    exact ⟨[], rfl, by simp⟩
  | cons e rest ih =>
    intro fs
    obtain ⟨W1, hW1, hk1⟩ := stepLang_writes fs e.1 e.2
    cases hres : stepLang fs e.1 e.2 with
    | mk fs1 oerr =>
      rw [hres] at hW1
      cases oerr with
      | some err =>
        refine ⟨W1, ?_, ?_⟩
        · rw [runLocales_cons_err fs fs1 e rest err hres]
          exact hW1
        · intro kc hm
          exact ⟨e, List.mem_cons_self _ _, hk1 kc hm⟩
      | none =>
        obtain ⟨W2, hW2, hk2⟩ := ih fs1
        have hW1b : fs1 = W1 ++ fs := hW1
        refine ⟨W2 ++ W1, ?_, ?_⟩
        · rw [runLocales_cons_ok fs fs1 e rest hres, hW2, hW1b, List.append_assoc]
        · intro kc hm
          rcases List.mem_append.mp hm with hm | hm
          · obtain ⟨e2, he2, hk⟩ := hk2 kc hm
            exact ⟨e2, List.mem_cons_of_mem _ he2, hk⟩
          · exact ⟨e, List.mem_cons_self _ _, hk1 kc hm⟩

theorem runLocales_app (L1 : List (String × List String)) :
    ∀ (L2 : List (String × List String)) (fs : FS),
      runLocales fs (L1 ++ L2) = (match runLocales fs L1 with
        | (fs1, none) => runLocales fs1 L2
        | (fs1, some err) => (fs1, some err)) := by
  induction L1 with
  | nil =>
    intro L2 fs
    simp [runLocales]
  | cons e rest ih =>
    intro L2 fs
    rw [List.cons_append]
    cases hres : stepLang fs e.1 e.2 with
    | mk fs1 oerr =>
      cases oerr with
      | none =>
        rw [runLocales_cons_ok fs fs1 e (rest ++ L2) hres, ih L2 fs1,
          runLocales_cons_ok fs fs1 e rest hres]
      | some err =>
        rw [runLocales_cons_err fs fs1 e (rest ++ L2) err hres,
          runLocales_cons_err fs fs1 e rest err hres]

theorem tableOk :
    ∀ e ∈ TRANSLATIONS, (unpack8 e.2).isSome ∧ ∀ s ∈ srcPaths, s ∉ outPaths e.1 := by
  decide

theorem renderDoc_eq (slot : Slot) (v : Texts) (content : String) :
    (renderDoc slot v content).data
      = replaceAll (replaceAll content.data (wrapL (origTitle slot)) (wrapL (transTitle slot v)))
          (wrapL (origDesc slot)) (wrapL (transDesc slot v)) := by
  cases slot <;> rfl

-- ### Keys written by a whole run

theorem lookup_isSome_of_mem (p c : String) : ∀ W : FS, (p, c) ∈ W →
    (List.lookup p W).isSome := by
  intro W
  induction W with
  | nil =>
    intro h
    cases h
  | cons kc rest ih =>
    intro h
    obtain ⟨k, c0⟩ := kc
    by_cases hp : p = k
    · subst hp
      simp [List.lookup]
    · rw [show List.lookup p ((k, c0) :: rest) = List.lookup p rest from by
        simp [List.lookup, beq_eq_false_iff_ne.mpr hp]]
      rcases List.mem_cons.mp h with heq | hm
      · exact absurd (congrArg Prod.fst heq) hp
      · exact ih hm

theorem runWrites_keys (c1 c2 c3 e1 e2 e3 : String) :
    ∀ L, ∀ kc ∈ runWrites c1 c2 c3 e1 e2 e3 L, ∃ e ∈ L, kc.1 ∈ outPaths e.1 := by
  intro L
  induction L with
  | nil =>
    intro kc h
    simp [runWrites] at h
  | cons ent rest ih =>
    intro kc h
    obtain ⟨lang, texts⟩ := ent
    simp only [runWrites] at h
    rcases List.mem_append.mp h with hm | hm
    · obtain ⟨e, he, hk⟩ := ih kc hm
      exact ⟨e, List.mem_cons_of_mem _ he, hk⟩
    · cases hv : unpack8 texts with
      | none =>
        rw [hv] at hm
        cases hm
      | some v =>
        rw [hv] at hm
        exact ⟨(lang, texts), List.mem_cons_self _ _,
          langWrites_keys lang v c1 c2 c3 e1 e2 e3 kc hm⟩

theorem runWrites_mem (c1 c2 c3 e1 e2 e3 p : String) :
    ∀ L ent, ent ∈ L → (unpack8 ent.2).isSome → p ∈ outPaths ent.1 →
      ∃ c, (p, c) ∈ runWrites c1 c2 c3 e1 e2 e3 L := by
  intro L
  induction L with
  | nil =>
    intro ent h
    cases h
  | cons ent0 rest ih =>
    intro ent hent hv hp
    obtain ⟨lang, texts⟩ := ent0
    simp only [runWrites]
    rcases List.mem_cons.mp hent with heq | hm
    · obtain ⟨v, hv2⟩ := Option.isSome_iff_exists.mp (by rw [heq] at hv; exact hv)
      rw [hv2]
      have hp2 : p ∈ outPaths lang := by rw [heq] at hp; exact hp
      simp only [outPaths, List.mem_cons, List.not_mem_nil, or_false] at hp2
      rcases hp2 with rfl | rfl | rfl | rfl | rfl | rfl
      · exact ⟨replacePhone 1 v c1, List.mem_append_right _ (by simp [langWrites])⟩
      · exact ⟨replacePhone 2 v c2, List.mem_append_right _ (by simp [langWrites])⟩
      · exact ⟨replacePhone 3 v c3, List.mem_append_right _ (by simp [langWrites])⟩
      · exact ⟨replaceIpad 1 v e1, List.mem_append_right _ (by simp [langWrites])⟩
      · exact ⟨replaceIpad 2 v e2, List.mem_append_right _ (by simp [langWrites])⟩
      · exact ⟨replaceIpad 3 v e3, List.mem_append_right _ (by simp [langWrites])⟩
    · obtain ⟨c, hc⟩ := ih ent hm hv hp
      exact ⟨c, List.mem_append_left _ hc⟩

-- ### The claims

/-- C7: the static translation table maps exactly 39 locale identifiers, and
every entry's value is an ordered tuple of exactly 8 strings, so the 8-way
destructuring performed per locale never fails and no entry is partially
populated. -/
theorem c7_table_shape :
    TRANSLATIONS.length = 39 ∧
      ∀ e ∈ TRANSLATIONS, e.2.length = 8 ∧ (unpack8 e.2).isSome := by
  decide

/-- C8: if processing a locale fails after the locales of `L1` succeeded, the
run aborts right there with the error propagated and no cleanup: the final
filesystem is exactly the one at the failure point, every file present before
the failing locale is still present, and no locale after the failing one is
processed. -/
theorem c8_abort_on_failure (fs fs1 fs2 : FS) (e : String × List String)
    (L1 L2 : List (String × List String)) (err : Err)
    (hpre : runLocales fs L1 = (fs1, none))
    (hfail : stepLang fs1 e.1 e.2 = (fs2, some err)) :
    runLocales fs (L1 ++ e :: L2) = (fs2, some err) ∧
      ∀ p, (readFile fs1 p).isSome → (readFile fs2 p).isSome := by
  constructor
  · rw [runLocales_app L1 (e :: L2) fs, hpre]
    show runLocales fs1 (e :: L2) = (fs2, some err)
    rw [runLocales_cons_err fs1 fs2 e L2 err hfail]
  · intro p hp
    obtain ⟨W, hW, _⟩ := stepLang_writes fs1 e.1 e.2
    rw [hfail] at hW
    have hW2 : fs2 = W ++ fs1 := hW
    rw [hW2]
    show (List.lookup p (W ++ fs1)).isSome
    rw [lookupAppend]
    cases hL : List.lookup p W with
    | some c => simp
    | none => exact hp

/-- C8 witness: with an empty source tree, the first locale of a one-entry
list fails on its first read and the run stops with the filesystem unchanged. -/
theorem c8_abort_on_failure_witness :
    runLocales [] ([] ++ ("ko", koTuple) :: []) = ([], some Err.ioError) ∧
      ∀ p, (readFile ([] : FS) p).isSome → (readFile ([] : FS) p).isSome :=
  c8_abort_on_failure [] [] [] ("ko", koTuple) [] [] Err.ioError rfl rfl

/-- C9: the renderer never writes to a canonical source document: the source
directory `en` is not a key of the translation table, and after any run (also
one that aborts) every source path reads back exactly what it held before. -/
theorem c9_sources_untouched :
    ("en" ∉ TRANSLATIONS.map Prod.fst) ∧
      ∀ (fs : FS) (s : String), s ∈ srcPaths → readFile (mainRun fs).1 s = readFile fs s := by
  constructor
  · decide
  · intro fs s hs
    obtain ⟨W, hW, hk⟩ := runLocales_writes TRANSLATIONS fs
    show readFile (runLocales fs TRANSLATIONS).1 s = readFile fs s
    rw [hW]
    apply readFile_append_skip
    intro kc hkc heq
    obtain ⟨e, he, hke⟩ := hk kc hkc
    exact (tableOk e he).2 s hs (heq ▸ hke)

/-- C9 witness: on a one-file source tree, `en/1.svg` reads the same before
and after a full run. -/
theorem c9_sources_untouched_witness :
    "en/1.svg" ∈ srcPaths ∧
      readFile (mainRun [("en/1.svg", "doc")]).1 "en/1.svg"
        = readFile [("en/1.svg", "doc")] "en/1.svg" :=
  ⟨by decide, c9_sources_untouched.2 [("en/1.svg", "doc")] "en/1.svg" (by decide)⟩

/-- C1: for every locale of the table and each of its six template documents,
if the slot's two delimited anchors occur (exactly once, and nowhere else, as
expressed by the scan conditions), the rendered document is the source with
exactly those two anchors replaced by the locale's translated strings wrapped
in the same delimiters: every other character is unchanged. -/
theorem c1_anchor_substitution
    (lang : String) (texts : List String) (v : Texts) (slot : Slot)
    (content : String) (p q r : List Char)
    (hmem : (lang, texts) ∈ TRANSLATIONS) (hv : unpack8 texts = some v)
    (hshape : content.data
      = p ++ (wrapL (origTitle slot) ++ (q ++ (wrapL (origDesc slot) ++ r))))
    (h1 : ∀ i, i < p.length → matchAt (wrapL (origTitle slot)) content.data i = false)
    (h2 : occursIn (wrapL (origTitle slot)) (q ++ (wrapL (origDesc slot) ++ r)) = false)
    (h3 : ∀ i, i < (p ++ (wrapL (transTitle slot v) ++ q)).length →
        matchAt (wrapL (origDesc slot))
          (p ++ (wrapL (transTitle slot v) ++ (q ++ (wrapL (origDesc slot) ++ r)))) i = false)
    (h4 : occursIn (wrapL (origDesc slot)) r = false) :
    (renderDoc slot v content).data
      = p ++ (wrapL (transTitle slot v) ++ (q ++ (wrapL (transDesc slot v) ++ r))) := by
  rw [renderDoc_eq, hshape]
  exact doubleShape p q r _ _ _ _ (wrapL_ne_nil _) (wrapL_ne_nil _)
    (by intro i hi; have := h1 i hi; rwa [hshape] at this) h2 h3 h4

/-- C1 witness: the `"ko"` phone slot-1 render of a miniature template. -/
theorem c1_anchor_substitution_witness :
    ("ko", koTuple) ∈ TRANSLATIONS ∧
      (renderDoc Slot.phone1 koTexts demoDoc).data
        = ['x'] ++ (wrapL (transTitle Slot.phone1 koTexts)
            ++ (['y'] ++ (wrapL (transDesc Slot.phone1 koTexts) ++ ['z']))) :=
  ⟨by decide,
    c1_anchor_substitution "ko" koTuple koTexts Slot.phone1 demoDoc ['x'] ['y'] ['z']
      (by decide) rfl (by decide) (by decide) (by decide) (by decide) (by decide)⟩

/-- C3: tablet slots 1 and 2 perform exactly the same replacements as phone
slots 1 and 2; the canonical tablet slot-3 anchors are distinct strings from
the phone slot-3 anchors; the tablet slot-3 renderer substitutes the
`title_ipad3`/`desc_ipad3` pair at the tablet anchors; and on a document
without the tablet-3 anchors it changes nothing, even if the phone slot-3
anchors are present (it does not use the phone pair). -/
theorem c3_tablet_slot3_pair (lang : String) (texts : List String) (v : Texts)
    (hmem : (lang, texts) ∈ TRANSLATIONS) (hv : unpack8 texts = some v) :
    (∀ c : String, replaceIpad 1 v c = replacePhone 1 v c
        ∧ replaceIpad 2 v c = replacePhone 2 v c) ∧
    (originals.title_ipad3 ≠ originals.title3 ∧ originals.desc_ipad3 ≠ originals.desc3) ∧
    (∀ (content : String) (p q r : List Char),
      content.data = p ++ (wrapL originals.title_ipad3 ++ (q ++ (wrapL originals.desc_ipad3 ++ r))) →
      (∀ i, i < p.length → matchAt (wrapL originals.title_ipad3) content.data i = false) →
      occursIn (wrapL originals.title_ipad3) (q ++ (wrapL originals.desc_ipad3 ++ r)) = false →
      (∀ i, i < (p ++ (wrapL v.title_ipad3 ++ q)).length →
        matchAt (wrapL originals.desc_ipad3)
          (p ++ (wrapL v.title_ipad3 ++ (q ++ (wrapL originals.desc_ipad3 ++ r)))) i = false) →
      occursIn (wrapL originals.desc_ipad3) r = false →
      (replaceIpad 3 v content).data
        = p ++ (wrapL v.title_ipad3 ++ (q ++ (wrapL v.desc_ipad3 ++ r)))) ∧
    (∀ content : String,
      occursIn (wrapL originals.title_ipad3) content.data = false →
      occursIn (wrapL originals.desc_ipad3) content.data = false →
      replaceIpad 3 v content = content) := by
  refine ⟨?_, ?_, ?_, ?_⟩
  · intro c
    exact ⟨rfl, rfl⟩
  · exact ⟨by decide, by decide⟩
  · intro content p q r hshape h1 h2 h3 h4
    show (renderDoc Slot.ipad3 v content).data = _
    rw [renderDoc_eq, hshape]
    exact doubleShape p q r _ _ _ _ (wrapL_ne_nil _) (wrapL_ne_nil _)
      (by intro i hi; have := h1 i hi; rwa [hshape] at this) h2 h3 h4
  · intro content hti hdi
    apply strExt
    show (renderDoc Slot.ipad3 v content).data = content.data
    rw [renderDoc_eq,
      show origTitle Slot.ipad3 = originals.title_ipad3 from rfl,
      show origDesc Slot.ipad3 = originals.desc_ipad3 from rfl]
    rw [replNone (wrapL (transTitle Slot.ipad3 v)) (wrapL_ne_nil _) _ hti]
    exact replNone (wrapL (transDesc Slot.ipad3 v)) (wrapL_ne_nil _) _ hdi

/-- C3 witness: the `"ko"` entry instantiates the tablet slot-3 contract. -/
theorem c3_tablet_slot3_pair_witness :
    ("ko", koTuple) ∈ TRANSLATIONS ∧
      ((∀ c : String, replaceIpad 1 koTexts c = replacePhone 1 koTexts c
          ∧ replaceIpad 2 koTexts c = replacePhone 2 koTexts c) ∧
      (originals.title_ipad3 ≠ originals.title3 ∧ originals.desc_ipad3 ≠ originals.desc3) ∧
      (∀ (content : String) (p q r : List Char),
        content.data = p ++ (wrapL originals.title_ipad3 ++ (q ++ (wrapL originals.desc_ipad3 ++ r))) →
        (∀ i, i < p.length → matchAt (wrapL originals.title_ipad3) content.data i = false) →
        occursIn (wrapL originals.title_ipad3) (q ++ (wrapL originals.desc_ipad3 ++ r)) = false →
        (∀ i, i < (p ++ (wrapL koTexts.title_ipad3 ++ q)).length →
          matchAt (wrapL originals.desc_ipad3)
            (p ++ (wrapL koTexts.title_ipad3 ++ (q ++ (wrapL originals.desc_ipad3 ++ r)))) i = false) →
        occursIn (wrapL originals.desc_ipad3) r = false →
        (replaceIpad 3 koTexts content).data
          = p ++ (wrapL koTexts.title_ipad3 ++ (q ++ (wrapL koTexts.desc_ipad3 ++ r)))) ∧
      (∀ content : String,
        occursIn (wrapL originals.title_ipad3) content.data = false →
        occursIn (wrapL originals.desc_ipad3) content.data = false →
        replaceIpad 3 koTexts content = content)) :=
  ⟨by decide, c3_tablet_slot3_pair "ko" koTuple koTexts (by decide) rfl⟩

/-- C4: a missing anchor is a silent no-op: if a slot's title anchor is absent
the renderer only applies the description replacement; if the description
anchor is absent from the title-replaced copy (in particular when it is
absent and the title anchor is present), the output is exactly the
title-replaced copy; if both anchors are absent the document is copied
unchanged; and in both loops a readable source is always written to the
locale's destination with no error raised. -/
theorem c4_missing_anchor_noop (lang : String) (texts : List String) (v : Texts) (slot : Slot)
    (hmem : (lang, texts) ∈ TRANSLATIONS) (hv : unpack8 texts = some v) :
    (∀ content : String,
      occursIn (wrapL (origTitle slot)) content.data = false →
      (renderDoc slot v content).data
        = replaceAll content.data (wrapL (origDesc slot)) (wrapL (transDesc slot v))) ∧
    (∀ content : String,
      occursIn (wrapL (origDesc slot))
        (replaceAll content.data (wrapL (origTitle slot)) (wrapL (transTitle slot v))) = false →
      (renderDoc slot v content).data
        = replaceAll content.data (wrapL (origTitle slot)) (wrapL (transTitle slot v))) ∧
    (∀ content : String,
      occursIn (wrapL (origTitle slot)) content.data = false →
      occursIn (wrapL (origDesc slot)) content.data = false →
      renderDoc slot v content = content) ∧
    (∀ (fs : FS) (i : Nat) (content : String), i ∈ [1, 2, 3] →
      readFile fs (phoneSrc i) = some content →
      phoneLoop lang v fs [i] = (writeFile fs (phoneDst lang i) (replacePhone i v content), none)) ∧
    (∀ (fs : FS) (i : Nat) (content : String), i ∈ [1, 2, 3] →
      readFile fs (ipadSrc i) = some content →
      ipadLoop lang v fs [i] = (writeFile fs (ipadDst lang i) (replaceIpad i v content), none)) := by
  refine ⟨?_, ?_, ?_, ?_, ?_⟩
  · intro content h
    rw [renderDoc_eq, replNone (wrapL (transTitle slot v)) (wrapL_ne_nil _) _ h]
  · intro content h
    rw [renderDoc_eq]
    exact replNone (wrapL (transDesc slot v)) (wrapL_ne_nil _) _ h
  · intro content hti hdi
    apply strExt
    rw [renderDoc_eq, replNone (wrapL (transTitle slot v)) (wrapL_ne_nil _) _ hti]
    exact replNone (wrapL (transDesc slot v)) (wrapL_ne_nil _) _ hdi
  · intro fs i content _ h
    rw [phoneLoop_cons lang v fs i [] content h, phoneLoop_nilEq]
  · intro fs i content _ h
    rw [ipadLoop_cons lang v fs i [] content h, ipadLoop_nilEq]

/-- C4 witness: the `"ko"` entry at phone slot 1 instantiates the contract. -/
theorem c4_missing_anchor_noop_witness :
    ("ko", koTuple) ∈ TRANSLATIONS ∧
      ((∀ content : String,
        occursIn (wrapL (origTitle Slot.phone1)) content.data = false →
        (renderDoc Slot.phone1 koTexts content).data
          = replaceAll content.data (wrapL (origDesc Slot.phone1))
              (wrapL (transDesc Slot.phone1 koTexts))) ∧
      (∀ content : String,
        occursIn (wrapL (origDesc Slot.phone1))
          (replaceAll content.data (wrapL (origTitle Slot.phone1))
            (wrapL (transTitle Slot.phone1 koTexts))) = false →
        (renderDoc Slot.phone1 koTexts content).data
          = replaceAll content.data (wrapL (origTitle Slot.phone1))
              (wrapL (transTitle Slot.phone1 koTexts))) ∧
      (∀ content : String,
        occursIn (wrapL (origTitle Slot.phone1)) content.data = false →
        occursIn (wrapL (origDesc Slot.phone1)) content.data = false →
        renderDoc Slot.phone1 koTexts content = content) ∧
      (∀ (fs : FS) (i : Nat) (content : String), i ∈ [1, 2, 3] →
        readFile fs (phoneSrc i) = some content →
        phoneLoop "ko" koTexts fs [i]
          = (writeFile fs (phoneDst "ko" i) (replacePhone i koTexts content), none)) ∧
      (∀ (fs : FS) (i : Nat) (content : String), i ∈ [1, 2, 3] →
        readFile fs (ipadSrc i) = some content →
        ipadLoop "ko" koTexts fs [i]
          = (writeFile fs (ipadDst "ko" i) (replaceIpad i koTexts content), none))) :=
  ⟨by decide, c4_missing_anchor_noop "ko" koTuple koTexts Slot.phone1 (by decide) rfl⟩

/-- C2: with the six canonical sources readable, one run of the renderer
succeeds and, for every locale of the table, makes each of the six output
paths of that locale's directory (the same six filenames as the sources)
present, while every path outside those output paths is untouched. -/
theorem c2_six_outputs (fs : FS) (c1 c2 c3 e1 e2 e3 : String)
    (h1 : readFile fs (phoneSrc 1) = some c1)
    (h2 : readFile fs (phoneSrc 2) = some c2)
    (h3 : readFile fs (phoneSrc 3) = some c3)
    (h4 : readFile fs (ipadSrc 1) = some e1)
    (h5 : readFile fs (ipadSrc 2) = some e2)
    (h6 : readFile fs (ipadSrc 3) = some e3) :
    ∃ fs1, mainRun fs = (fs1, none) ∧
      (∀ e ∈ TRANSLATIONS, ∀ p ∈ outPaths e.1, (readFile fs1 p).isSome) ∧
      (∀ p, (∀ e ∈ TRANSLATIONS, p ∉ outPaths e.1) → readFile fs1 p = readFile fs p) := by
  have hrun := runLocales_eq c1 c2 c3 e1 e2 e3 TRANSLATIONS fs tableOk h1 h2 h3 h4 h5 h6
  refine ⟨runWrites c1 c2 c3 e1 e2 e3 TRANSLATIONS ++ fs, hrun, ?_, ?_⟩
  · intro e he p hp
    obtain ⟨c, hc⟩ := runWrites_mem c1 c2 c3 e1 e2 e3 p TRANSLATIONS e he (tableOk e he).1 hp
    have hsome := lookup_isSome_of_mem p c _ hc
    obtain ⟨c0, hc0⟩ := Option.isSome_iff_exists.mp hsome
    rw [readFile_append_some p _ fs c0 hc0]
    rfl
  · intro p hp
    apply readFile_append_skip
    intro kc hkc heq
    obtain ⟨e, he, hke⟩ := runWrites_keys c1 c2 c3 e1 e2 e3 TRANSLATIONS kc hkc
    exact hp e he (heq ▸ hke)

/-- C2 witness: a six-file miniature source tree. -/
theorem c2_six_outputs_witness :
    ∃ fs1, mainRun demoFs = (fs1, none) ∧
      (∀ e ∈ TRANSLATIONS, ∀ p ∈ outPaths e.1, (readFile fs1 p).isSome) ∧
      (∀ p, (∀ e ∈ TRANSLATIONS, p ∉ outPaths e.1) → readFile fs1 p = readFile demoFs p) :=
  c2_six_outputs demoFs "a" "b" "c" "d" "e" "f" rfl rfl rfl rfl rfl rfl

/-- Writing the same entries twice leaves every lookup unchanged. -/
theorem lookup_double (p : String) (A fs : FS) :
    List.lookup p (A ++ (A ++ fs)) = List.lookup p (A ++ fs) := by
  rw [lookupAppend p A (A ++ fs)]
  cases hL : List.lookup p A with
  | some c => rw [lookupAppend p A fs, hL]
  | none => rfl

/-- C6: with the six canonical sources readable, running the renderer twice
succeeds both times and the second run reproduces the first run's filesystem
exactly: every path reads back the same after the second run as after the
first (each output file is overwritten with the same bytes). -/
theorem c6_idempotent_runs (fs : FS) (c1 c2 c3 e1 e2 e3 : String)
    (h1 : readFile fs (phoneSrc 1) = some c1)
    (h2 : readFile fs (phoneSrc 2) = some c2)
    (h3 : readFile fs (phoneSrc 3) = some c3)
    (h4 : readFile fs (ipadSrc 1) = some e1)
    (h5 : readFile fs (ipadSrc 2) = some e2)
    (h6 : readFile fs (ipadSrc 3) = some e3) :
    ∃ fs1 fs2, mainRun fs = (fs1, none) ∧ mainRun fs1 = (fs2, none) ∧
      ∀ p, readFile fs2 p = readFile fs1 p := by
  have hrun1 := runLocales_eq c1 c2 c3 e1 e2 e3 TRANSLATIONS fs tableOk h1 h2 h3 h4 h5 h6
  have hskip : ∀ p, p ∈ srcPaths →
      readFile (runWrites c1 c2 c3 e1 e2 e3 TRANSLATIONS ++ fs) p = readFile fs p := by
    intro p hp
    apply readFile_append_skip
    intro kc hkc heq
    obtain ⟨e, he, hke⟩ := runWrites_keys c1 c2 c3 e1 e2 e3 TRANSLATIONS kc hkc
    exact (tableOk e he).2 p hp (heq ▸ hke)
  have hrun2 := runLocales_eq c1 c2 c3 e1 e2 e3 TRANSLATIONS
    (runWrites c1 c2 c3 e1 e2 e3 TRANSLATIONS ++ fs) tableOk
    (by rw [hskip _ (by simp [srcPaths])]; exact h1)
    (by rw [hskip _ (by simp [srcPaths])]; exact h2)
    (by rw [hskip _ (by simp [srcPaths])]; exact h3)
    (by rw [hskip _ (by simp [srcPaths])]; exact h4)
    (by rw [hskip _ (by simp [srcPaths])]; exact h5)
    (by rw [hskip _ (by simp [srcPaths])]; exact h6)
  refine ⟨_, _, hrun1, hrun2, ?_⟩
  intro p
  exact lookup_double p (runWrites c1 c2 c3 e1 e2 e3 TRANSLATIONS) fs

/-- C6 witness: two runs over the miniature source tree coincide. -/
theorem c6_idempotent_runs_witness :
    ∃ fs1 fs2, mainRun demoFs = (fs1, none) ∧ mainRun fs1 = (fs2, none) ∧
      ∀ p, readFile fs2 p = readFile fs1 p :=
  c6_idempotent_runs demoFs "a" "b" "c" "d" "e" "f" rfl rfl rfl rfl rfl rfl

/-- C5: for locale `"ko"`, a phone slot-1 document containing the two
canonical anchors (once, as expressed by the scan conditions) renders to a
document that contains `>WebView 테스터<` and
`>WKWebView와 SafariVC를 바로 테스트하세요<` and contains no occurrence of
`>WebView Tester<`. -/
theorem c5_ko_phone1 (texts : List String) (v : Texts) (content : String)
    (p q r : List Char)
    (hmem : ("ko", texts) ∈ TRANSLATIONS) (hv : unpack8 texts = some v)
    (hshape : content.data
      = p ++ (wrapL "WebView Tester"
          ++ (q ++ (wrapL "Test WKWebView &amp; SafariVC instantly" ++ r))))
    (h1 : ∀ i, i < p.length → matchAt (wrapL "WebView Tester") content.data i = false)
    (h2 : occursIn (wrapL "WebView Tester")
        (q ++ (wrapL "Test WKWebView &amp; SafariVC instantly" ++ r)) = false)
    (h3 : ∀ i, i < (p ++ (wrapL "WebView 테스터" ++ q)).length →
        matchAt (wrapL "Test WKWebView &amp; SafariVC instantly")
          (p ++ (wrapL "WebView 테스터"
            ++ (q ++ (wrapL "Test WKWebView &amp; SafariVC instantly" ++ r)))) i = false)
    (h4 : occursIn (wrapL "Test WKWebView &amp; SafariVC instantly") r = false) :
    occursIn (wrapL "WebView 테스터") (renderDoc Slot.phone1 v content).data = true ∧
    occursIn (wrapL "WKWebView와 SafariVC를 바로 테스트하세요")
      (renderDoc Slot.phone1 v content).data = true ∧
    occursIn (wrapL "WebView Tester") (renderDoc Slot.phone1 v content).data = false := by
  have htab : ∀ e ∈ TRANSLATIONS, e.1 = "ko" → e.2 = koTuple := by decide
  have htexts : texts = koTuple := htab ("ko", texts) hmem rfl
  subst htexts
  have hvv : v = koTexts := by
    have hu : unpack8 koTuple = some koTexts := rfl
    rw [hu] at hv
    injection hv with h
    exact h.symm
  subst hvv
  have eT : origTitle Slot.phone1 = "WebView Tester" := rfl
  have eD : origDesc Slot.phone1 = "Test WKWebView &amp; SafariVC instantly" := rfl
  have eT2 : transTitle Slot.phone1 koTexts = "WebView 테스터" := rfl
  have eD2 : transDesc Slot.phone1 koTexts = "WKWebView와 SafariVC를 바로 테스트하세요" := rfl
  have hres : (renderDoc Slot.phone1 koTexts content).data
      = p ++ (wrapL "WebView 테스터"
          ++ (q ++ (wrapL "WKWebView와 SafariVC를 바로 테스트하세요" ++ r))) := by
    rw [renderDoc_eq, eT, eD, eT2, eD2, hshape]
    exact doubleShape p q r _ _ _ _ (wrapL_ne_nil _) (wrapL_ne_nil _)
      (by intro i hi; have := h1 i hi; rwa [hshape] at this) h2 h3 h4
  refine ⟨?_, ?_, ?_⟩
  · rw [hres]
    exact occursIn_of_parts _ p
      (q ++ (wrapL "WKWebView와 SafariVC를 바로 테스트하세요" ++ r)) rfl
  · rw [hres]
    exact occursIn_of_parts _ (p ++ (wrapL "WebView 테스터" ++ q)) r
      (by simp [List.append_assoc])
  · rw [renderDoc_eq, eT, eD, eT2, eD2]
    simp only [wrapL_eq]
    refine noQAfter _ _ _ (by decide) (by decide) (by decide) (by decide)
      _ _ (Nat.le_refl _) ?_
    exact noPatAfter _ _ (by decide) (by decide) (by decide) (by decide)
      _ _ (Nat.le_refl _)

/-- C5 witness: the miniature phone slot-1 template for `"ko"`. -/
theorem c5_ko_phone1_witness :
    ("ko", koTuple) ∈ TRANSLATIONS ∧
      (occursIn (wrapL "WebView 테스터") (renderDoc Slot.phone1 koTexts demoDoc).data = true ∧
      occursIn (wrapL "WKWebView와 SafariVC를 바로 테스트하세요")
        (renderDoc Slot.phone1 koTexts demoDoc).data = true ∧
      occursIn (wrapL "WebView Tester") (renderDoc Slot.phone1 koTexts demoDoc).data = false) :=
  ⟨by decide,
    c5_ko_phone1 koTuple koTexts demoDoc ['x'] ['y'] ['z'] (by decide) rfl
      (by decide) (by decide) (by decide) (by decide) (by decide)⟩

/-- C10: the substitution applied to each document is Python `str.replace`,
which replaces every occurrence of the anchor, applied first for the title
and then, on the result, for the description; in particular a document whose
title anchor occurs twice has both occurrences replaced by the same
translated string. -/
theorem c10_replaces_all_occurrences (lang : String) (texts : List String)
    (v : Texts) (slot : Slot)
    (hmem : (lang, texts) ∈ TRANSLATIONS) (hv : unpack8 texts = some v) :
    (∀ content : String, renderDoc slot v content
        = pyReplace (pyReplace content (">" ++ (origTitle slot ++ "<"))
            (">" ++ (transTitle slot v ++ "<")))
          (">" ++ (origDesc slot ++ "<")) (">" ++ (transDesc slot v ++ "<"))) ∧
    (∀ (content : String) (p q r : List Char),
      content.data = p ++ (wrapL (origTitle slot) ++ (q ++ (wrapL (origTitle slot) ++ r))) →
      (∀ i, i < p.length → matchAt (wrapL (origTitle slot)) content.data i = false) →
      (∀ i, i < q.length →
        matchAt (wrapL (origTitle slot)) (q ++ (wrapL (origTitle slot) ++ r)) i = false) →
      occursIn (wrapL (origTitle slot)) r = false →
      occursIn (wrapL (origDesc slot))
        (p ++ (wrapL (transTitle slot v) ++ (q ++ (wrapL (transTitle slot v) ++ r)))) = false →
      (renderDoc slot v content).data
        = p ++ (wrapL (transTitle slot v) ++ (q ++ (wrapL (transTitle slot v) ++ r)))) := by
  constructor
  · intro content
    cases slot <;> rfl
  · intro content p q r hshape hp hq hr hD
    rw [renderDoc_eq, hshape]
    have hinner : replaceAll
        (p ++ (wrapL (origTitle slot) ++ (q ++ (wrapL (origTitle slot) ++ r))))
        (wrapL (origTitle slot)) (wrapL (transTitle slot v))
        = p ++ (wrapL (transTitle slot v) ++ (q ++ (wrapL (transTitle slot v) ++ r))) := by
      rw [replAcross (wrapL (transTitle slot v)) (wrapL_ne_nil _) p
        (q ++ (wrapL (origTitle slot) ++ r))
        (by intro i hi; have := hp i hi; rwa [hshape] at this)]
      rw [replAcross (wrapL (transTitle slot v)) (wrapL_ne_nil _) q r hq]
      rw [replNone (wrapL (transTitle slot v)) (wrapL_ne_nil _) r hr]
    rw [hinner]
    exact replNone (wrapL (transDesc slot v)) (wrapL_ne_nil _) _ hD

/-- C10 witness: for `"ko"` phone slot 1, a document whose title anchor
occurs twice has both occurrences replaced. -/
theorem c10_replaces_all_occurrences_witness :
    ("ko", koTuple) ∈ TRANSLATIONS ∧
      ((∀ content : String, renderDoc Slot.phone1 koTexts content
          = pyReplace (pyReplace content (">" ++ (origTitle Slot.phone1 ++ "<"))
              (">" ++ (transTitle Slot.phone1 koTexts ++ "<")))
            (">" ++ (origDesc Slot.phone1 ++ "<"))
            (">" ++ (transDesc Slot.phone1 koTexts ++ "<"))) ∧
      (∀ (content : String) (p q r : List Char),
        content.data
          = p ++ (wrapL (origTitle Slot.phone1) ++ (q ++ (wrapL (origTitle Slot.phone1) ++ r))) →
        (∀ i, i < p.length → matchAt (wrapL (origTitle Slot.phone1)) content.data i = false) →
        (∀ i, i < q.length →
          matchAt (wrapL (origTitle Slot.phone1))
            (q ++ (wrapL (origTitle Slot.phone1) ++ r)) i = false) →
        occursIn (wrapL (origTitle Slot.phone1)) r = false →
        occursIn (wrapL (origDesc Slot.phone1))
          (p ++ (wrapL (transTitle Slot.phone1 koTexts)
            ++ (q ++ (wrapL (transTitle Slot.phone1 koTexts) ++ r)))) = false →
        (renderDoc Slot.phone1 koTexts content).data
          = p ++ (wrapL (transTitle Slot.phone1 koTexts)
              ++ (q ++ (wrapL (transTitle Slot.phone1 koTexts) ++ r))))) ∧
    (renderDoc Slot.phone1 koTexts dupDoc).data
      = ['x'] ++ (wrapL (transTitle Slot.phone1 koTexts)
          ++ (['y'] ++ (wrapL (transTitle Slot.phone1 koTexts) ++ ['z']))) :=
  ⟨by decide,
    ⟨c10_replaces_all_occurrences "ko" koTuple koTexts Slot.phone1 (by decide) rfl,
      (c10_replaces_all_occurrences "ko" koTuple koTexts Slot.phone1 (by decide) rfl).2 dupDoc
        ['x'] ['y'] ['z'] (by decide) (by decide) (by decide) (by decide) (by decide)⟩⟩
